import Mathlib

/-!
Verification of the scholar citation harvesting pipeline
(`scholar_citations.py`) and the affiliation resolution pass
(`scrape_affliations.py`) against their natural-language specification.

The Python sources are shallowly embedded: pure fragments become Lean
functions, the stateful checkpoint loop becomes explicit state passing,
HTTP calls become oracle function parameters, and waits become events in
an explicit trace. Machine integers are modelled as `Nat`/`Int` (no
overflow is relevant here), Python string truthiness is modelled
explicitly, and Python string comparison is modelled as lexicographic
comparison of code points.
-/

/-! ## Basic string machinery shared by both scripts -/

/-- ASCII digit test, modelling the digit class used by the scripts
(`str.isdigit` and the regex class on the relevant ASCII inputs). -/
def isDigitChar (c : Char) : Bool := '0' ≤ c && c ≤ '9'

/-- Numeric value of a digit string, modelling Python `int(s)` on a string
of digits. -/
def digitsToNat (l : List Char) : Nat :=
  l.foldl (fun n c => 10 * n + (c.toNat - 48)) 0

/-- Python `s.isdigit()`: true iff `s` is nonempty and every character is a
digit. -/
def strIsDigit (s : String) : Bool := !s.data.isEmpty && s.data.all isDigitChar

/-- Python `int(s)` for a digit string, as an integer. -/
def strToInt (s : String) : Int := Int.ofNat (digitsToNat s.data)

/-- ASCII lowering of one character, modelling Python `str.lower` on the
ASCII range. -/
def asciiLower (c : Char) : Char :=
  if 'A' ≤ c && c ≤ 'Z' then Char.ofNat (c.toNat + 32) else c

/-- Python `s.lower()` (ASCII model). -/
def strLower (s : String) : String := ⟨s.data.map asciiLower⟩

/-- Whitespace test used by Python `str.strip()`. -/
def isSpaceChar (c : Char) : Bool := c = ' ' || c = '\t' || c = '\n' || c = '\r'

/-- Python `s.strip()`: remove leading and trailing whitespace. -/
def stripStr (s : String) : String :=
  ⟨(((s.data.dropWhile isSpaceChar).reverse).dropWhile isSpaceChar).reverse⟩

/-- Does `hay` start with `needle`? -/
def startsWithChars : List Char → List Char → Bool
  | [], _ => true
  | _ :: _, [] => false
  | a :: as, b :: bs => a = b && startsWithChars as bs

/-- Python substring containment `needle in hay` on strings: `needle`
occurs contiguously in `hay` (the empty string occurs in every string). -/
def hasSubstr : List Char → List Char → Bool
  | n, [] => startsWithChars n []
  | n, h :: t => startsWithChars n (h :: t) || hasSubstr n t

/-- Lexicographic three-way comparison of character lists by code point,
modelling Python string comparison (used by the pandas sort keys). -/
def cmpChars : List Char → List Char → Ordering
  | [], [] => .eq
  | [], _ :: _ => .lt
  | _ :: _, [] => .gt
  | a :: as, b :: bs => if a < b then .lt else if b < a then .gt else cmpChars as bs

theorem cmpChars_eq_iff : ∀ x y : List Char, cmpChars x y = .eq ↔ x = y := by
  intro x
  induction x with
  | nil => intro y; cases y <;> simp [cmpChars]
  | cons a as ih =>
    intro y
    cases y with
    | nil => simp [cmpChars]
    | cons b bs =>
      simp only [cmpChars]
      rcases lt_trichotomy a b with h | h | h
      · simp only [if_pos h]
        simp
        intro hab
        exact absurd hab (ne_of_lt h)
      · subst h
        simp [lt_irrefl, ih]
      · rw [if_neg (lt_asymm h), if_pos h]
        simp
        intro hab
        exact absurd hab.symm (ne_of_lt h)

theorem cmpChars_swap : ∀ x y : List Char, cmpChars y x = (cmpChars x y).swap := by
  intro x
  induction x with
  | nil => intro y; cases y <;> simp [cmpChars, Ordering.swap]
  | cons a as ih =>
    intro y
    cases y with
    | nil => simp [cmpChars, Ordering.swap]
    | cons b bs =>
      simp only [cmpChars]
      rcases lt_trichotomy a b with h | h | h
      · simp [h, lt_asymm h, Ordering.swap]
      · subst h; simp [lt_irrefl, ih]
      · simp [h, lt_asymm h, Ordering.swap]

theorem cmpChars_lt_trans : ∀ x y z : List Char, cmpChars x y = .lt →
    cmpChars y z = .lt → cmpChars x z = .lt := by
  intro x
  induction x with
  | nil =>
    intro y z hxy hyz
    cases y with
    | nil => simp [cmpChars] at hxy
    | cons b bs =>
      cases z with
      | nil => simp [cmpChars] at hyz
      | cons c cs => simp [cmpChars]
  | cons a as ih =>
    intro y z hxy hyz
    cases y with
    | nil => simp [cmpChars] at hxy
    | cons b bs =>
      cases z with
      | nil => simp [cmpChars] at hyz
      | cons c cs =>
        simp only [cmpChars] at hxy hyz ⊢
        by_cases hab : a < b
        · by_cases hbc : b < c
          · simp [lt_trans hab hbc]
          · by_cases hcb : c < b
            · simp [hbc, hcb] at hyz
            · have hbc' : b = c := le_antisymm (not_lt.mp hcb) (not_lt.mp hbc)
              subst hbc'
              simp [hab]
        · by_cases hba : b < a
          · simp [hab, hba] at hxy
          · have hab' : a = b := le_antisymm (not_lt.mp hba) (not_lt.mp hab)
            subst hab'
            simp only [lt_irrefl, if_false] at hxy
            by_cases hac : a < c
            · simp [hac]
            · by_cases hca : c < a
              · simp [hac, hca] at hyz
              · have hac' : a = c := le_antisymm (not_lt.mp hca) (not_lt.mp hac)
                subst hac'
                simp only [lt_irrefl, if_false] at hyz ⊢
                exact ih bs cs hxy hyz

theorem cmpChars_nil_lt {y : List Char} (h : y ≠ []) : cmpChars [] y = .lt := by
  cases y with
  | nil => exact absurd rfl h
  | cons c cs => simp [cmpChars]

theorem cmpChars_cons_nil_gt {c : Char} {cs : List Char} :
    cmpChars (c :: cs) [] = .gt := by simp [cmpChars]

/-! ## Embedding of scholar_citations.py -/

/-- One citing paper, as produced by the record extractor
(`_parse_citing_paper`, src/scholar_citations.py lines 114-150) and
tagged with the cited paper title by the collector. All fields are
strings, a missing value being the empty string, exactly as in the
source. -/
structure CitationRecord where
  title : String
  authors : String
  venue : String
  year : String
  link : String
  snippet : String
  cited_paper : String
deriving DecidableEq

/-- Model of `random.uniform(2.0, 4.0)` in `_get_random_delay`
(src/scholar_citations.py lines 31-33): `u` is the underlying unit
uniform draw, the result is `2 + u * (4 - 2)`. -/
def get_random_delay (u : ℚ) : ℚ := 2 + u * (4 - 2)

/-- Outcome of one `session.get` call inside `_make_request`: either a
response with a status code and body, or a raised transport exception. -/
inductive ReqOutcome where
  | resp (code : Nat) (body : String)
  | exn
deriving DecidableEq

/-- Observable events of the fetch loop: an attempted request (by attempt
index), a fixed rate-limit sleep of the given duration, or a jittered
sleep drawn by `_get_random_delay`. -/
inductive FetchEv where
  | request (i : Nat)
  | sleepFixed (t : Nat)
  | sleepJitter
deriving DecidableEq

/-- Loop body of `_make_request` (src/scholar_citations.py lines 35-54)
over the remaining attempt indices: status 200 returns the body, status
429 sleeps `(attempt + 1) * 60`, any other status only logs, and a
transport exception sleeps a jittered delay when this is not the last
attempt of the budget. Returns the result and the event trace. -/
def make_request_go (f : Nat → ReqOutcome) (retries : Nat) :
    List Nat → Option String × List FetchEv
  | [] => (none, [])
  | i :: rest =>
    match f i with
    | .resp code body =>
      if code = 200 then (some body, [.request i])
      else if code = 429 then
        let r := make_request_go f retries rest
        (r.1, .request i :: .sleepFixed ((i + 1) * 60) :: r.2)
      else
        let r := make_request_go f retries rest
        (r.1, .request i :: r.2)
    | .exn =>
      let r := make_request_go f retries rest
      (r.1, .request i :: (if i < retries - 1 then [FetchEv.sleepJitter] else []) ++ r.2)

/-- `_make_request` (src/scholar_citations.py lines 35-54): iterate the
loop body over `range(retries)`; `f` gives the outcome of the HTTP call
of each attempt. -/
def make_request (f : Nat → ReqOutcome) (retries : Nat) : Option String × List FetchEv :=
  make_request_go f retries (List.range retries)

/-- The attempt indices actually executed: the loop runs through `l` and
stops after the first attempt returning status 200. -/
def attemptsTaken (f : Nat → ReqOutcome) : List Nat → List Nat
  | [] => []
  | i :: rest =>
    match f i with
    | .resp code _ => if code = 200 then [i] else i :: attemptsTaken f rest
    | .exn => i :: attemptsTaken f rest

/-- Events contributed by a single attempt of the fetch loop, as a
function of its outcome. -/
def attemptEvents (retries i : Nat) (o : ReqOutcome) : List FetchEv :=
  match o with
  | .resp code _ =>
    if code = 200 then [.request i]
    else if code = 429 then [.request i, .sleepFixed ((i + 1) * 60)]
    else [.request i]
  | .exn => .request i :: (if i < retries - 1 then [FetchEv.sleepJitter] else [])

theorem make_request_go_trace (f : Nat → ReqOutcome) (retries : Nat) :
    ∀ l : List Nat, (make_request_go f retries l).2 =
      (attemptsTaken f l).flatMap (fun i => attemptEvents retries i (f i)) := by
  intro l
  induction l with
  | nil => simp [make_request_go, attemptsTaken]
  | cons i rest ih =>
    simp only [make_request_go, attemptsTaken]
    cases h : f i with
    | resp code body =>
      by_cases h200 : code = 200
      · simp [h, h200, attemptEvents]
      · by_cases h429 : code = 429
        · simp [h, h200, h429, attemptEvents, ih]
        · simp [h, h200, h429, attemptEvents, ih]
    | exn => simp [h, attemptEvents, ih]

/-- Abstract view of a citation results page, as consumed by
`_get_total_citation_pages`: the number of result blocks
(`div.gs_r gs_or gs_scl`) and, when the pagination footer `div#gs_n`
exists, the text labels of its anchor links. -/
structure CitationsPage where
  numResults : Nat
  footer : Option (List String)
deriving DecidableEq

/-- `_get_total_citation_pages` (src/scholar_citations.py lines 87-112):
zero result blocks give 0; with results, a footer whose links include at
least one digit-only label gives the maximum of those labels as numbers
(the empty-maximum `ValueError` is caught); otherwise the count is 1. -/
def get_total_citation_pages (p : CitationsPage) : Nat :=
  if p.numResults = 0 then 0
  else
    match p.footer with
    | some links =>
      if !links.isEmpty then
        match (links.filter strIsDigit).map (fun s => digitsToNat s.data) with
        | [] => 1
        | n :: ns => ns.foldl Nat.max n
      else 1
    | none => 1

/-- The year extraction regex `20\d\x7b2\x7d|19\d\x7b2\x7d` tried at one
position: an alternative matches iff the next four characters are `20`
or `19` followed by two digits. -/
def matchYearAt : List Char → Option (List Char)
  | a :: b :: c :: d :: _ =>
    if a = '2' && b = '0' && isDigitChar c && isDigitChar d then some [a, b, c, d]
    else if a = '1' && b = '9' && isDigitChar c && isDigitChar d then some [a, b, c, d]
    else none
  | _ => none

/-- Leftmost match of the year regex, as `re.search` finds it. -/
def findYearChars : List Char → List Char
  | [] => []
  | a :: rest =>
    match matchYearAt (a :: rest) with
    | some m => m
    | none => findYearChars rest

/-- Year field of a parsed citing paper (src/scholar_citations.py lines
131-133): the first regex match in the byline text, or the empty string
when there is none. -/
def extract_year (bylineText : String) : String := ⟨findYearChars bylineText.data⟩

/-- The year filter predicate of `get_all_citations`
(src/scholar_citations.py line 229): keep a record iff its year is a
nonempty digit string whose value is at least `minYear`. -/
def yearKeep (minYear : Int) (c : CitationRecord) : Bool :=
  c.year ≠ "" && strIsDigit c.year && minYear ≤ strToInt c.year

/-- The year filtering step of `get_all_citations`
(src/scholar_citations.py lines 228-229): the branch `if min_year:` runs
only when `min_year` is truthy, i.e. not `None` and nonzero. -/
def applyYearFilter (minYear : Option Int) (cs : List CitationRecord) : List CitationRecord :=
  match minYear with
  | none => cs
  | some m => if m = 0 then cs else cs.filter (yearKeep m)

/-- The pandas comparison key of the final sort (src/scholar_citations.py
line 248): `year` descending then `title` ascending, both compared as
Python strings (lexicographically by code point). -/
def citLE (a b : CitationRecord) : Bool :=
  match cmpChars a.year.data b.year.data with
  | .eq => cmpChars a.title.data b.title.data ≠ .gt
  | .lt => false
  | .gt => true

/-- The final ordering step `df.sort_values(by=[year, title],
ascending=[False, True])` (src/scholar_citations.py line 248): a stable
sort by `citLE`, modelled with the stable `List.mergeSort`. -/
def sortCitations (l : List CitationRecord) : List CitationRecord :=
  l.mergeSort citLE

theorem citLE_total (a b : CitationRecord) : citLE a b || citLE b a := by
  cases hy : cmpChars a.year.data b.year.data with
  | lt =>
    have h2 : cmpChars b.year.data a.year.data = .gt := by rw [cmpChars_swap, hy]; rfl
    simp [citLE, hy, h2]
  | gt => simp [citLE, hy]
  | eq =>
    have h2 : cmpChars b.year.data a.year.data = .eq := by rw [cmpChars_swap, hy]; rfl
    cases ht : cmpChars a.title.data b.title.data with
    | gt =>
      have ht2 : cmpChars b.title.data a.title.data = .lt := by rw [cmpChars_swap, ht]; rfl
      simp [citLE, hy, h2, ht, ht2]
    | lt => simp [citLE, hy, h2, ht]
    | eq => simp [citLE, hy, h2, ht]

theorem citLE_trans (a b c : CitationRecord) (hab : citLE a b) (hbc : citLE b c) :
    citLE a c := by
  unfold citLE at hab hbc ⊢
  cases hyab : cmpChars a.year.data b.year.data with
  | lt => simp [hyab] at hab
  | eq =>
    have hy : a.year.data = b.year.data := (cmpChars_eq_iff _ _).mp hyab
    cases hybc : cmpChars b.year.data c.year.data with
    | lt => simp [hybc] at hbc
    | eq =>
      have hy2 : b.year.data = c.year.data := (cmpChars_eq_iff _ _).mp hybc
      rw [hy, hy2, (cmpChars_eq_iff c.year.data c.year.data).mpr rfl]
      rw [hyab] at hab
      rw [hybc] at hbc
      simp only at hab hbc ⊢
      cases htab : cmpChars a.title.data b.title.data with
      | gt => simp [htab] at hab
      | eq =>
        have ht : a.title.data = b.title.data := (cmpChars_eq_iff _ _).mp htab
        rw [ht]
        exact hbc
      | lt =>
        cases htbc : cmpChars b.title.data c.title.data with
        | gt => simp [htbc] at hbc
        | eq =>
          have ht : b.title.data = c.title.data := (cmpChars_eq_iff _ _).mp htbc
          rw [← ht]
          simp [htab]
        | lt => simp [cmpChars_lt_trans _ _ _ htab htbc]
    | gt =>
      rw [hy, hybc]
  | gt =>
    cases hybc : cmpChars b.year.data c.year.data with
    | lt => simp [hybc] at hbc
    | eq =>
      have hy2 : b.year.data = c.year.data := (cmpChars_eq_iff _ _).mp hybc
      rw [← hy2, hyab]
    | gt =>
      have h1 : cmpChars b.year.data a.year.data = .lt := by
        rw [cmpChars_swap, hyab]; rfl
      have h2 : cmpChars c.year.data b.year.data = .lt := by
        rw [cmpChars_swap, hybc]; rfl
      have h3 : cmpChars c.year.data a.year.data = .lt := cmpChars_lt_trans _ _ _ h2 h1
      have h4 : cmpChars a.year.data c.year.data = .gt := by
        rw [cmpChars_swap, h3]; rfl
      rw [h4]

/-! ## Embedding of scrape_affliations.py -/

/-- One author entry of a Crossref work item, as consumed by
`process_papers` (src/scrape_affliations.py lines 160-167): optional
given and family names, and, when the `affiliation` key is present, its
entries; an entry is `some name` when it is a dict with a `name` key and
`none` when it is malformed (skipped by the source). -/
structure CrAuthor where
  given : Option String
  family : Option String
  affiliation : Option (List (Option String))
deriving DecidableEq

/-- The Crossref work item used by `process_papers`: its optional DOI and
its author list (`paper_data.get("author", [])`, absent key modelled as
the empty list). -/
structure PaperData where
  doi : Option String
  author : List CrAuthor
deriving DecidableEq

/-- One result row of the affiliation pass (src/scrape_affliations.py
lines 185-190). -/
structure AffRecord where
  paper_title : String
  author : String
  affiliations : String
  doi : String
deriving DecidableEq

/-- The fallback sources queried per author, in the order the source
queries them. -/
inductive AffSrc where
  | openalex
  | semanticScholar
deriving DecidableEq

/-- Python truthiness of an optional string (`if ... and doi:`,
`doi or "Not found"`): `None` and the empty string are falsy. -/
def pyStrTruthy : Option String → Bool
  | none => false
  | some s => s ≠ ""

/-- Python truthiness of an optional list (`if openalex_affiliations:`):
`None` and the empty list are falsy. -/
def pyListTruthy : Option (List α) → Bool
  | none => false
  | some l => !l.isEmpty

/-- The author name built at src/scrape_affliations.py line 161:
the f-string of the given and family names separated by one space, then
stripped. -/
def mkName (a : CrAuthor) : String :=
  stripStr ((a.given.getD "") ++ " " ++ (a.family.getD ""))

/-- The affiliations embedded in the Crossref author entry
(src/scrape_affliations.py lines 164-167): the names of its well-formed
affiliation dict entries. -/
def embeddedAffs (a : CrAuthor) : List String :=
  match a.affiliation with
  | none => []
  | some entries => entries.filterMap id

/-- The name-matching rule of the fallback loops
(src/scrape_affliations.py lines 174 and 182): case-insensitive
substring containment in either direction. -/
def nameMatches (name cand : String) : Bool :=
  hasSubstr (strLower name).data (strLower cand).data ||
    hasSubstr (strLower cand).data (strLower name).data

/-- Affiliations collected from one fallback source result
(src/scrape_affliations.py lines 171-175 and 179-183): when the result
is truthy, the affiliation of every returned (author, affiliation) pair
whose author name matches. -/
def matchedAffs (name : String) (res : Option (List (String × String))) : List String :=
  if pyListTruthy res then
    ((res.getD []).filter (fun p => nameMatches name p.1)).map Prod.snd
  else []

/-- Python `"; ".join(l)`. -/
def joinSemicolon : List String → String
  | [] => ""
  | [a] => a
  | a :: b :: rest => a ++ "; " ++ joinSemicolon (b :: rest)

/-- The `doi` field of a result row: `doi or "Not found"`
(src/scrape_affliations.py line 189). -/
def doiField : Option String → String
  | none => "Not found"
  | some d => if d = "" then "Not found" else d

/-- Per-author resolution of `process_papers`
(src/scrape_affliations.py lines 160-191): embedded Crossref
affiliations first; if none and the DOI is truthy, query OpenAlex and
keep name-matching affiliations; if still none and the DOI is truthy,
query Semantic Scholar the same way; emit one result row, with the
joined affiliations or the sentinel. `oa` and `ss` are oracles for the
two lookup services; the returned trace lists the fallback sources
queried, in order. -/
def resolveAuthor (oa ss : String → Option (List (String × String)))
    (title : String) (doi : Option String) (a : CrAuthor) :
    AffRecord × List AffSrc :=
  let name := mkName a
  let affs1 := embeddedAffs a
  let step2 :=
    if affs1.isEmpty && pyStrTruthy doi then
      (matchedAffs name (oa (doi.getD "")), [AffSrc.openalex])
    else ([], [])
  let affs2 := affs1 ++ step2.1
  let step3 :=
    if affs2.isEmpty && pyStrTruthy doi then
      (matchedAffs name (ss (doi.getD "")), [AffSrc.semanticScholar])
    else ([], [])
  let affs3 := affs2 ++ step3.1
  ({ paper_title := title
     author := name
     affiliations := if !affs3.isEmpty then joinSemicolon affs3 else "Not found"
     doi := doiField doi },
   step2.2 ++ step3.2)

/-- Result rows contributed by one paper title
(src/scrape_affliations.py lines 154-191): none when Crossref yields no
work item, else one row per Crossref author. `cr` is the oracle for
`search_crossref`. -/
def recordsForTitle (cr : String → Option PaperData)
    (oa ss : String → Option (List (String × String))) (title : String) :
    List AffRecord :=
  match cr title with
  | none => []
  | some pd => pd.author.map (fun a => (resolveAuthor oa ss title pd.doi a).1)

/-- The result list built by `process_papers`
(src/scrape_affliations.py lines 138-212) in an error-free run: start
from the rows loaded from the existing checkpoint file, then, for each
title from `startIndex` on, append that paper's rows. -/
def process_papers (cr : String → Option PaperData)
    (oa ss : String → Option (List (String × String)))
    (titles : List String) (startIndex : Nat) (loaded : List AffRecord) :
    List AffRecord :=
  (titles.drop startIndex).foldl (fun acc t => acc ++ recordsForTitle cr oa ss t) loaded

/-- Number of result rows for a given (paper, author) pair. -/
def pairCount (rs : List AffRecord) (p a : String) : Nat :=
  (rs.filter (fun r => r.paper_title = p && r.author = a)).length

/-- One paper of a checkpointed affiliation pass, abstracted to its
fate: the rows its author loop would append, and `failAfter = some k`
when its processing raises after `k` of those rows were appended (the
checkpoint write of src/scrape_affliations.py lines 196-198 is then
skipped by the except block at lines 201-204); `failAfter = none` when
the paper completes and its checkpoint write succeeds. -/
structure PaperJob where
  recs : List AffRecord
  failAfter : Option Nat
deriving DecidableEq

/-- In-memory result list and on-disk checkpoint contents during one run
of `process_papers`. -/
structure CkptState where
  mem : List AffRecord
  disk : List AffRecord
deriving DecidableEq

/-- The rows a paper actually appends to the in-memory list. -/
def appendedOf (j : PaperJob) : List AffRecord :=
  match j.failAfter with
  | none => j.recs
  | some k => j.recs.take k

/-- Processing of one paper (src/scrape_affliations.py lines 150-207):
on success the full accumulated list is rewritten to disk
(`checkpoint_df.to_csv`, a full-rewrite checkpoint); on an error raised
mid-paper the rows appended so far stay in memory and the disk is left
untouched. -/
def stepPaper (s : CkptState) (j : PaperJob) : CkptState :=
  match j.failAfter with
  | none => { mem := s.mem ++ j.recs, disk := s.mem ++ j.recs }
  | some k => { mem := s.mem ++ j.recs.take k, disk := s.disk }

/-- One checkpointed pass of `process_papers` over its papers, starting
from the rows loaded from an existing checkpoint file (lines 144-148
load them into both the memory list and, trivially, the disk). -/
def runPass (loaded : List AffRecord) (jobs : List PaperJob) : CkptState :=
  jobs.foldl stepPaper { mem := loaded, disk := loaded }

/-! ## Helper lemmas -/

theorem data_eq_nil_iff (s : String) : s.data = [] ↔ s = "" := by
  constructor
  · intro h
    cases s with
    | mk d => cases h; rfl
  · intro h
    subst h
    rfl

theorem isEmpty_false_of_ne_nil {α : Type} {l : List α} (h : l ≠ []) : l.isEmpty = false := by
  cases l with
  | nil => exact absurd rfl h
  | cons a t => rfl

theorem hasSubstr_nil (x : List Char) : hasSubstr [] x = true := by
  cases x <;> simp [hasSubstr, startsWithChars]

/-- Maximum of a nonempty list the way Python `max` folds it. -/
theorem foldl_max_mem (ns : List Nat) : ∀ n : Nat, ns.foldl Nat.max n ∈ n :: ns := by
  induction ns with
  | nil => intro n; simp [List.foldl]
  | cons m ms ih =>
    intro n
    show List.foldl Nat.max (Nat.max n m) ms ∈ n :: m :: ms
    have h := ih (Nat.max n m)
    rcases List.mem_cons.mp h with h1 | h1
    · rw [h1]
      rcases Nat.le_total n m with hm | hm
      · have hx : Nat.max n m = m := Nat.max_eq_right hm
        rw [hx]
        exact List.mem_cons_of_mem _ (List.mem_cons_self _ _)
      · have hx : Nat.max n m = n := Nat.max_eq_left hm
        rw [hx]
        exact List.mem_cons_self _ _
    · exact List.mem_cons_of_mem _ (List.mem_cons_of_mem _ h1)

theorem le_foldl_max (ns : List Nat) : ∀ n m : Nat, m ∈ n :: ns → m ≤ ns.foldl Nat.max n := by
  induction ns with
  | nil =>
    intro n m hm
    simp at hm
    simp [List.foldl, hm]
  | cons k ks ih =>
    intro n m hm
    simp only [List.foldl]
    rcases List.mem_cons.mp hm with h1 | h1
    · subst h1
      exact le_trans (Nat.le_max_left m k) (ih (Nat.max m k) (Nat.max m k) (List.mem_cons_self _ _))
    · rcases List.mem_cons.mp h1 with h2 | h2
      · subst h2
        exact le_trans (Nat.le_max_right n m) (ih (Nat.max n m) (Nat.max n m) (List.mem_cons_self _ _))
      · exact ih (Nat.max n k) m (List.mem_cons_of_mem _ h2)

theorem foldl_append_init {α β : Type} (g : β → List α) :
    ∀ (l : List β) (init : List α),
      l.foldl (fun acc t => acc ++ g t) init = init ++ l.foldl (fun acc t => acc ++ g t) [] := by
  intro l
  induction l with
  | nil => intro init; simp
  | cons t ts ih =>
    intro init
    simp only [List.foldl]
    rw [ih (init ++ g t), ih ([] ++ g t)]
    simp [List.append_assoc]

theorem findYearChars_first : ∀ l : List Char,
    (findYearChars l = [] ∧ ∀ j, matchYearAt (l.drop j) = none) ∨
    (∃ i, matchYearAt (l.drop i) = some (findYearChars l) ∧
      ∀ j < i, matchYearAt (l.drop j) = none) := by
  intro l
  induction l with
  | nil =>
    left
    refine ⟨rfl, fun j => ?_⟩
    simp [List.drop_nil, matchYearAt]
  | cons a rest ih =>
    cases h : matchYearAt (a :: rest) with
    | some m =>
      right
      exact ⟨0, by simp [findYearChars, h], fun j hj => absurd hj (Nat.not_lt_zero j)⟩
    | none =>
      have hfy : findYearChars (a :: rest) = findYearChars rest := by
        simp [findYearChars, h]
      rcases ih with ⟨h1, h2⟩ | ⟨i, h1, h2⟩
      · left
        refine ⟨by rw [hfy]; exact h1, fun j => ?_⟩
        cases j with
        | zero => exact h
        | succ j => exact h2 j
      · right
        refine ⟨i + 1, by simpa [hfy] using h1, fun j hj => ?_⟩
        cases j with
        | zero => exact h
        | succ j => exact h2 j (Nat.lt_of_succ_lt_succ hj)

theorem matchYearAt_shape {l m : List Char} (h : matchYearAt l = some m) :
    m.length = 4 ∧ m.all isDigitChar = true ∧
      (m.take 2 = ['1', '9'] ∨ m.take 2 = ['2', '0']) := by
  match l with
  | [] => simp [matchYearAt] at h
  | [a] => simp [matchYearAt] at h
  | [a, b] => simp [matchYearAt] at h
  | [a, b, c] => simp [matchYearAt] at h
  | a :: b :: c :: d :: rest =>
    simp only [matchYearAt] at h
    by_cases h20 : (a = '2' && b = '0' && isDigitChar c && isDigitChar d) = true
    · rw [if_pos h20] at h
      simp only [Bool.and_eq_true, decide_eq_true_eq] at h20
      obtain ⟨⟨⟨ha, hb⟩, hc⟩, hd⟩ := h20
      cases h
      subst ha
      subst hb
      refine ⟨rfl, ?_, Or.inr rfl⟩
      simp only [isDigitChar, Bool.and_eq_true, decide_eq_true_eq] at hc hd
      simp [List.all_cons, isDigitChar, hc.1, hc.2, hd.1, hd.2]
    · rw [if_neg h20] at h
      by_cases h19 : (a = '1' && b = '9' && isDigitChar c && isDigitChar d) = true
      · rw [if_pos h19] at h
        simp only [Bool.and_eq_true, decide_eq_true_eq] at h19
        obtain ⟨⟨⟨ha, hb⟩, hc⟩, hd⟩ := h19
        cases h
        subst ha
        subst hb
        refine ⟨rfl, ?_, Or.inl rfl⟩
        simp only [isDigitChar, Bool.and_eq_true, decide_eq_true_eq] at hc hd
        simp [List.all_cons, isDigitChar, hc.1, hc.2, hd.1, hd.2]
      · rw [if_neg h19] at h
        cases h

theorem runPass_mem_eq : ∀ (jobs : List PaperJob) (s : CkptState),
    (jobs.foldl stepPaper s).mem = s.mem ++ jobs.flatMap appendedOf := by
  intro jobs
  induction jobs with
  | nil => intro s; simp
  | cons j rest ih =>
    intro s
    simp only [List.foldl, List.flatMap_cons]
    rw [ih (stepPaper s j)]
    have hstep : (stepPaper s j).mem = s.mem ++ appendedOf j := by
      cases hf : j.failAfter <;> simp [stepPaper, appendedOf, hf]
    rw [hstep, List.append_assoc]

theorem runPass_disk_prefix : ∀ (jobs : List PaperJob) (s : CkptState),
    (∃ t, s.disk ++ t = s.mem) →
    ∃ t, (jobs.foldl stepPaper s).disk ++ t = (jobs.foldl stepPaper s).mem := by
  intro jobs
  induction jobs with
  | nil => intro s h; exact h
  | cons j rest ih =>
    intro s h
    apply ih
    obtain ⟨t, ht⟩ := h
    cases hf : j.failAfter with
    | none => exact ⟨[], by simp [stepPaper, hf]⟩
    | some k =>
      refine ⟨t ++ j.recs.take k, ?_⟩
      simp [stepPaper, hf, ← List.append_assoc, ht]

/-- Citation record with the given title and year and all other fields
empty, for concrete test inputs. -/
def mkCit (t y : String) : CitationRecord :=
  { title := t, authors := "", venue := "", year := y, link := "", snippet := "",
    cited_paper := "" }

/-! ## Claims -/

/-- C9: when the configured minimum year is 0 or None, the year filter
branch is skipped entirely and no record is dropped; in particular
min_year = 0 does not act as the numeric bound 0, which would drop a
record with an empty year. -/
theorem min_year_zero_skips_filter :
    (∀ cs : List CitationRecord, applyYearFilter (some 0) cs = cs) ∧
    (∀ cs : List CitationRecord, applyYearFilter none cs = cs) ∧
    List.filter (yearKeep 0) [mkCit "C" ""] = [] := by
  refine ⟨fun cs => ?_, fun cs => rfl, by decide⟩
  simp [applyYearFilter]

/-- C1 counterexample: on records with years 2020, 2018, empty and abc
with min_year 2019, the year filter keeps only the 2020 record; the
empty-year and non-numeric-year records are dropped, contradicting the
claim that such records always survive the filter. -/
theorem year_filter_counterexample :
    applyYearFilter (some 2019)
        [mkCit "A" "2020", mkCit "B" "2018", mkCit "C" "", mkCit "D" "abc"] =
      [mkCit "A" "2020"] ∧
    mkCit "C" "" ∉ applyYearFilter (some 2019)
        [mkCit "A" "2020", mkCit "B" "2018", mkCit "C" "", mkCit "D" "abc"] ∧
    mkCit "D" "abc" ∉ applyYearFilter (some 2019)
        [mkCit "A" "2020", mkCit "B" "2018", mkCit "C" "", mkCit "D" "abc"] := by
  refine ⟨by decide, by decide, by decide⟩

/-- C1 amended: for a truthy (nonzero) minimum year, the filter keeps
exactly the records whose year is present, numeric and at least the
minimum; records with an absent or non-numeric year are dropped as well,
so of the years 2020, 2018, empty and abc with min_year 2019 only the
2020 record survives. -/
theorem year_filter_amended (m : Int) (hm : m ≠ 0) (cs : List CitationRecord)
    (c : CitationRecord) :
    (c ∈ applyYearFilter (some m) cs ↔
      c ∈ cs ∧ c.year ≠ "" ∧ strIsDigit c.year = true ∧ m ≤ strToInt c.year) ∧
    applyYearFilter (some 2019)
        [mkCit "A" "2020", mkCit "B" "2018", mkCit "C" "", mkCit "D" "abc"] =
      [mkCit "A" "2020"] := by
  constructor
  · simp only [applyYearFilter, if_neg hm, List.mem_filter, yearKeep,
      Bool.and_eq_true, decide_eq_true_eq]
    tauto
  · decide

/-- C1 witness: the amended filter characterization instantiated at a
concrete record list and minimum year. -/
theorem year_filter_amended_witness :
    mkCit "A" "2020" ∈ applyYearFilter (some 2019) [mkCit "A" "2020"] :=
  ((year_filter_amended 2019 (by decide) [mkCit "A" "2020"] (mkCit "A" "2020")).1).mpr
    ⟨by decide, by decide, by decide, by decide⟩

/-- C4: pagination discovery returns 0 on a page with no result blocks;
returns 1 on a page with results and no pagination footer; and with a
footer whose links have at least one digit-only label, returns the
maximum of those labels read as numbers, e.g. 5 for labels 1, 2, 5. -/
theorem pagination_discovery_spec :
    (∀ footer, get_total_citation_pages ⟨0, footer⟩ = 0) ∧
    (∀ n, n ≠ 0 → get_total_citation_pages ⟨n, none⟩ = 1) ∧
    (∀ n links m, n ≠ 0 →
      m ∈ (links.filter strIsDigit).map (fun s => digitsToNat s.data) →
      m ≤ get_total_citation_pages ⟨n, some links⟩ ∧
        get_total_citation_pages ⟨n, some links⟩ ∈
          (links.filter strIsDigit).map (fun s => digitsToNat s.data)) ∧
    get_total_citation_pages ⟨3, some ["1", "2", "5"]⟩ = 5 := by
  refine ⟨fun footer => rfl, fun n hn => by simp [get_total_citation_pages, hn],
    fun n links m hn hm => ?_, by decide⟩
  have hlinks : links ≠ [] := by
    intro h
    subst h
    simp at hm
  simp only [get_total_citation_pages, if_neg hn, isEmpty_false_of_ne_nil hlinks,
    Bool.not_false, if_true]
  cases hnums : (links.filter strIsDigit).map (fun s => digitsToNat s.data) with
  | nil =>
    rw [hnums] at hm
    simp at hm
  | cons k ks =>
    rw [hnums] at hm
    exact ⟨le_foldl_max ks k m hm, foldl_max_mem ks k⟩

/-- C4 witness: the pagination bound and maximum-membership parts
instantiated at a page with three results and labels 1, 2, 5. -/
theorem pagination_discovery_witness :
    2 ≤ get_total_citation_pages ⟨3, some ["1", "2", "5"]⟩ ∧
      get_total_citation_pages ⟨3, some ["1", "2", "5"]⟩ ∈
        ((["1", "2", "5"] : List String).filter strIsDigit).map
          (fun s => digitsToNat s.data) :=
  pagination_discovery_spec.2.2.1 3 ["1", "2", "5"] 2 (by decide) (by decide)

/-- C6: the year extracted from any byline is either empty (when no
position of the byline matches the year regex) or the four-character
match at the first matching position, which consists of ASCII digits and
begins with 19 or 20. -/
theorem extracted_year_shape (byline : String) :
    (extract_year byline = "" ∧ ∀ j, matchYearAt (byline.data.drop j) = none) ∨
    (∃ i, matchYearAt (byline.data.drop i) = some (extract_year byline).data ∧
      (∀ j < i, matchYearAt (byline.data.drop j) = none) ∧
      (extract_year byline).length = 4 ∧
      (extract_year byline).data.all isDigitChar = true ∧
      ((extract_year byline).data.take 2 = ['1', '9'] ∨
        (extract_year byline).data.take 2 = ['2', '0'])) := by
  rcases findYearChars_first byline.data with ⟨h1, h2⟩ | ⟨i, h1, h2⟩
  · left
    refine ⟨?_, h2⟩
    show String.mk (findYearChars byline.data) = ""
    rw [h1]
  · right
    have hdata : (extract_year byline).data = findYearChars byline.data := rfl
    rw [hdata] at *
    obtain ⟨hl, hall, hpre⟩ := matchYearAt_shape h1
    exact ⟨i, h1, h2, hl, hall, hpre⟩

/-- C6 witness: the shape theorem applied to a concrete byline containing
the year 1984. -/
theorem extracted_year_shape_witness : (extract_year "J Doe - Nature, 1984").length = 4 := by
  rcases extracted_year_shape "J Doe - Nature, 1984" with ⟨h1, _⟩ | ⟨_, _, _, hl, _⟩
  · exact absurd h1 (by decide)
  · exact hl

/-- C2 counterexample: with every attempt returning HTTP status 500 and a
budget of 3 attempts, the fetch loop performs the three requests with no
jittered delay at all between them, contradicting the claim that a
randomized delay from the interval 2 to 4 is waited after every failing
non-200, non-429 attempt that is not the last. -/
theorem retry_delay_counterexample :
    make_request (fun _ => ReqOutcome.resp 500 "") 3 =
      (none, [FetchEv.request 0, FetchEv.request 1, FetchEv.request 2]) ∧
    FetchEv.sleepJitter ∉ (make_request (fun _ => ReqOutcome.resp 500 "") 3).2 := by
  refine ⟨by decide, by decide⟩

/-- C2 amended: the fetch trace is the concatenation of the per-attempt
events of the attempts executed; a transport error that is not on the
last attempt contributes a request followed by one jittered sleep, while
a non-200, non-429 status contributes the request only (no delay); 429
contributes the fixed escalating sleep; and the jittered delay, when
drawn, lies in the closed interval from 2 to 4. -/
theorem retry_delay_amended (f : Nat → ReqOutcome) (retries i code : Nat)
    (body : String) (u : ℚ) :
    (make_request f retries).2 =
      (attemptsTaken f (List.range retries)).flatMap
        (fun j => attemptEvents retries j (f j)) ∧
    (f i = ReqOutcome.exn → i < retries - 1 →
      attemptEvents retries i (f i) = [FetchEv.request i, FetchEv.sleepJitter]) ∧
    (f i = ReqOutcome.resp code body → code ≠ 200 → code ≠ 429 →
      attemptEvents retries i (f i) = [FetchEv.request i]) ∧
    (f i = ReqOutcome.resp 429 body →
      attemptEvents retries i (f i) =
        [FetchEv.request i, FetchEv.sleepFixed ((i + 1) * 60)]) ∧
    (0 ≤ u → u ≤ 1 → 2 ≤ get_random_delay u ∧ get_random_delay u ≤ 4) := by
  refine ⟨make_request_go_trace f retries (List.range retries), ?_, ?_, ?_, ?_⟩
  · intro h hlast
    rw [h]
    simp [attemptEvents, hlast]
  · intro h h200 h429
    rw [h]
    simp [attemptEvents, h200, h429]
  · intro h
    rw [h]
    simp [attemptEvents]
  · intro h0 h1
    constructor
    · have : 0 ≤ u * (4 - 2) := by nlinarith
      unfold get_random_delay
      linarith
    · have : u * (4 - 2) ≤ 2 := by nlinarith
      unfold get_random_delay
      linarith

/-- C2 witness: the amended retry-delay theorem applied to a concrete
schedule of outcomes, retry budget, attempt index and uniform draw. -/
theorem retry_delay_amended_witness :
    attemptEvents 3 0 ((fun _ => ReqOutcome.exn) 0) =
      [FetchEv.request 0, FetchEv.sleepJitter] ∧
    2 ≤ get_random_delay (1 / 2) ∧ get_random_delay (1 / 2) ≤ 4 := by
  have h := retry_delay_amended (fun _ => ReqOutcome.exn) 3 0 500 "" (1 / 2)
  exact ⟨h.2.1 rfl (by decide), h.2.2.2.2 (by norm_num) (by norm_num)⟩

/-- C5: the final ordering is a stable sort of the accumulated records:
the output is a permutation of the input, pairwise ordered by year
descending then title ascending; a record with a missing year sorts
strictly after any record with a present year; any pair already in
order keeps its relative order (stability); and the three-record
example sorts to A(2020), B(2019), C(empty year). -/
theorem citation_sort_spec (l : List CitationRecord) :
    (sortCitations l).Perm l ∧
    (sortCitations l).Pairwise (fun a b => citLE a b = true) ∧
    (∀ a b : CitationRecord, a.year = "" → b.year ≠ "" →
      citLE b a = true ∧ citLE a b = false) ∧
    (∀ (a b : CitationRecord) (l2 : List CitationRecord),
      citLE a b = true → List.Sublist [a, b] l2 →
        List.Sublist [a, b] (sortCitations l2)) ∧
    sortCitations [mkCit "B" "2019", mkCit "A" "2020", mkCit "C" ""] =
      [mkCit "A" "2020", mkCit "B" "2019", mkCit "C" ""] := by
  refine ⟨List.mergeSort_perm l citLE,
    List.sorted_mergeSort (fun a b c => citLE_trans a b c) citLE_total l,
    fun a b ha hb => ?_, fun a b l2 hab hsub =>
      List.pair_sublist_mergeSort (fun a b c => citLE_trans a b c) citLE_total hab hsub,
    ?_⟩
  · have hadata : a.year.data = [] := by
      rw [ha]
    have hbdata : b.year.data ≠ [] := fun h => hb ((data_eq_nil_iff b.year).mp h)
    constructor
    · show (match cmpChars b.year.data a.year.data with
        | Ordering.eq => cmpChars b.title.data a.title.data ≠ Ordering.gt
        | Ordering.lt => false
        | Ordering.gt => true) = true
      rw [hadata]
      cases hy : b.year.data with
      | nil => exact absurd hy hbdata
      | cons c cs => rw [cmpChars_cons_nil_gt]
    · show (match cmpChars a.year.data b.year.data with
        | Ordering.eq => cmpChars a.title.data b.title.data ≠ Ordering.gt
        | Ordering.lt => false
        | Ordering.gt => true) = false
      rw [hadata, cmpChars_nil_lt hbdata]
  · have h1 : citLE (mkCit "B" "2019") (mkCit "A" "2020") = false := by decide
    have h2 : citLE (mkCit "A" "2020") (mkCit "C" "") = true := by decide
    have h3 : citLE (mkCit "B" "2019") (mkCit "C" "") = true := by decide
    simp [sortCitations, List.mergeSort, List.splitInTwo, List.splitAt_eq, List.merge,
      h1, h2, h3]

/-- C5 witness: the sort specification applied at concrete records, the
missing-year clause instantiated with an empty-year and a 2020 record
and the stability clause at a concrete two-record list. -/
theorem citation_sort_spec_witness :
    (citLE (mkCit "A" "2020") (mkCit "C" "") = true ∧
      citLE (mkCit "C" "") (mkCit "A" "2020") = false) ∧
    List.Sublist [mkCit "A" "2020", mkCit "C" ""]
      (sortCitations [mkCit "A" "2020", mkCit "C" ""]) := by
  have h := citation_sort_spec []
  exact ⟨h.2.2.1 (mkCit "C" "") (mkCit "A" "2020") rfl (by decide),
    h.2.2.2.1 (mkCit "A" "2020") (mkCit "C" "") [mkCit "A" "2020", mkCit "C" ""]
      (by decide) (by decide)⟩

/-- C7: for each author, when the primary (Crossref) response embeds at
least one affiliation, neither fallback source is queried; when it
embeds none and the DOI is truthy, OpenAlex is queried, and Semantic
Scholar is queried after it exactly when OpenAlex yielded no
name-matching affiliation. -/
theorem affiliation_fallback_order (oa ss : String → Option (List (String × String)))
    (title : String) (doi : Option String) (a : CrAuthor) :
    (embeddedAffs a ≠ [] → (resolveAuthor oa ss title doi a).2 = []) ∧
    (embeddedAffs a = [] → pyStrTruthy doi = true →
      (matchedAffs (mkName a) (oa (doi.getD "")) ≠ [] →
        (resolveAuthor oa ss title doi a).2 = [AffSrc.openalex]) ∧
      (matchedAffs (mkName a) (oa (doi.getD "")) = [] →
        (resolveAuthor oa ss title doi a).2 =
          [AffSrc.openalex, AffSrc.semanticScholar])) := by
  refine ⟨fun hE => ?_, fun hE hdoi => ⟨fun hm => ?_, fun hm => ?_⟩⟩
  · simp [resolveAuthor, isEmpty_false_of_ne_nil hE]
  · simp [resolveAuthor, hE, hdoi, isEmpty_false_of_ne_nil hm]
  · simp [resolveAuthor, hE, hdoi, hm]

/-- C7 witness: an author with an embedded Crossref affiliation triggers
no fallback queries. -/
theorem affiliation_fallback_order_witness :
    (resolveAuthor (fun _ => none) (fun _ => none) "T" (some "d")
      { given := some "A", family := some "B", affiliation := some [some "U"] }).2 = [] :=
  (affiliation_fallback_order (fun _ => none) (fun _ => none) "T" (some "d")
    { given := some "A", family := some "B", affiliation := some [some "U"] }).1
    (by decide)

/-- C10: an author reported with neither given nor family name gets the
empty string as constructed name; the empty name matches every candidate
name under the case-insensitive containment rule; hence, on the fallback
path, every affiliation returned by OpenAlex — or, when OpenAlex is
falsy, by Semantic Scholar — is attached to that single author's result
row (joined in order). -/
theorem empty_name_attaches_all (oa ss : String → Option (List (String × String)))
    (title d : String) (a : CrAuthor) (l : List (String × String)) :
    (a.given = none → a.family = none → mkName a = "") ∧
    (∀ cand : String, nameMatches "" cand = true) ∧
    (a.given = none → a.family = none → embeddedAffs a = [] → d ≠ "" →
      ((oa d = some l → l ≠ [] →
        (resolveAuthor oa ss title (some d) a).1.affiliations =
          joinSemicolon (l.map Prod.snd)) ∧
      (pyListTruthy (oa d) = false → ss d = some l → l ≠ [] →
        (resolveAuthor oa ss title (some d) a).1.affiliations =
          joinSemicolon (l.map Prod.snd)))) := by
  have hmatch : ∀ cand : String, nameMatches "" cand = true := by
    intro cand
    have hdata : (strLower "").data = [] := rfl
    simp [nameMatches, hdata, hasSubstr_nil]
  have hname : a.given = none → a.family = none → mkName a = "" := by
    intro hg hf
    cases a with
    | mk g f aff =>
      simp only at hg hf
      subst hg
      subst hf
      show stripStr ((Option.getD none "") ++ " " ++ (Option.getD none "")) = ""
      decide
  refine ⟨hname, hmatch, fun hg hf hE hd => ?_⟩
  have hname2 := hname hg hf
  have hall : matchedAffs (mkName a) (some l) = l.map Prod.snd := by
    by_cases hl : l = []
    · subst hl
      simp [matchedAffs]
    · have : List.filter (fun p => nameMatches (mkName a) p.1) l = l :=
        List.filter_eq_self.mpr (fun p hp => by rw [hname2]; exact hmatch p.1)
      simp [matchedAffs, pyListTruthy, isEmpty_false_of_ne_nil hl, this]
  constructor
  · intro hoa hl
    have hmap : l.map Prod.snd ≠ [] := by
      intro h
      exact hl (List.map_eq_nil_iff.mp h)
    simp [resolveAuthor, hE, pyStrTruthy, hd, hoa, hall,
      isEmpty_false_of_ne_nil hmap]
  · intro hfalsy hss hl
    have hmap : l.map Prod.snd ≠ [] := by
      intro h
      exact hl (List.map_eq_nil_iff.mp h)
    have hoa0 : matchedAffs (mkName a) (oa d) = [] := by
      simp [matchedAffs, hfalsy]
    simp [resolveAuthor, hE, pyStrTruthy, hd, hss, hall, hoa0,
      isEmpty_false_of_ne_nil hmap]

/-- C10 witness: the empty-name clauses applied to a concrete nameless
author, DOI and OpenAlex answer with two affiliations. -/
theorem empty_name_attaches_all_witness :
    (resolveAuthor (fun _ => some [("John Smith", "Uni A"), ("Jane Roe", "Uni B")])
        (fun _ => none) "T" (some "d")
        { given := none, family := none, affiliation := none }).1.affiliations =
      joinSemicolon ["Uni A", "Uni B"] :=
  ((empty_name_attaches_all
      (fun _ => some [("John Smith", "Uni A"), ("Jane Roe", "Uni B")])
      (fun _ => none) "T" "d"
      { given := none, family := none, affiliation := none }
      [("John Smith", "Uni A"), ("Jane Roe", "Uni B")]).2.2
    rfl rfl rfl (by decide)).1 rfl (by decide)

/-- C3 counterexample: re-running the affiliation pass with start index 0
against an already-complete checkpoint (the output of a full run over
one title with one author) yields the (paper, author) pair twice in the
result set, contradicting the claim that no duplicate pairs arise. -/
theorem rerun_duplication_counterexample :
    pairCount
      (process_papers
        (fun _ => some ⟨some "d", [⟨some "A", some "B", some [some "U"]⟩]⟩)
        (fun _ => none) (fun _ => none) ["T"] 0
        (process_papers
          (fun _ => some ⟨some "d", [⟨some "A", some "B", some [some "U"]⟩]⟩)
          (fun _ => none) (fun _ => none) ["T"] 0 []))
      "T" "A B" = 2 := by decide

/-- C3 amended: re-running with start index 0 does use the loaded prior
results as the starting point, but reprocesses every title and appends
its rows again: the result is the loaded rows followed by a fresh full
run, so against an already-complete checkpoint every (paper, author)
pair occurs exactly twice as often as in one clean run. -/
theorem rerun_duplication_amended (cr : String → Option PaperData)
    (oa ss : String → Option (List (String × String))) (titles : List String)
    (loaded : List AffRecord) (p aName : String) :
    process_papers cr oa ss titles 0 loaded =
      loaded ++ process_papers cr oa ss titles 0 [] ∧
    pairCount
        (process_papers cr oa ss titles 0 (process_papers cr oa ss titles 0 []))
        p aName =
      2 * pairCount (process_papers cr oa ss titles 0 []) p aName := by
  have key : ∀ init : List AffRecord,
      process_papers cr oa ss titles 0 init =
        init ++ process_papers cr oa ss titles 0 [] := by
    intro init
    unfold process_papers
    exact foldl_append_init _ _ init
  refine ⟨key loaded, ?_⟩
  rw [key (process_papers cr oa ss titles 0 [])]
  unfold pairCount
  rw [List.filter_append, List.length_append, two_mul]

/-- C8 counterexample: a pass over one paper that raises after one of its
two author rows was appended leaves that fully processed (paper, author)
pair in memory but skips the checkpoint write, so the on-disk length is
0 while one pair was fully processed — the claimed equality fails. -/
theorem checkpoint_length_counterexample :
    (runPass []
        [⟨[⟨"P", "X", "Not found", "Not found"⟩,
           ⟨"P", "Y", "Not found", "Not found"⟩], some 1⟩]).mem.length = 1 ∧
    (runPass []
        [⟨[⟨"P", "X", "Not found", "Not found"⟩,
           ⟨"P", "Y", "Not found", "Not found"⟩], some 1⟩]).disk.length = 0 := by
  refine ⟨by decide, by decide⟩

/-- C8 amended: within one pass the on-disk checkpoint is append-only
and monotonically growing (each snapshot is a prefix of the in-memory
list and of every later snapshot), the in-memory list is exactly the
loaded rows followed by the rows appended for every fully processed
(paper, author) pair, and after each paper that completes without error
the disk equals the full in-memory list — but a paper that raises
mid-way skips its write, leaving its already processed pairs off disk
until the next successful write. -/
theorem checkpoint_growth_amended (loaded : List AffRecord) (jobs : List PaperJob)
    (j : PaperJob) :
    (∃ t, (runPass loaded jobs).disk ++ t = (runPass loaded jobs).mem) ∧
    (∃ t, (runPass loaded jobs).disk ++ t = (runPass loaded (jobs ++ [j])).disk) ∧
    (runPass loaded jobs).mem = loaded ++ jobs.flatMap appendedOf ∧
    (j.failAfter = none →
      (runPass loaded (jobs ++ [j])).disk = (runPass loaded (jobs ++ [j])).mem) := by
  have hpre : ∃ t, (runPass loaded jobs).disk ++ t = (runPass loaded jobs).mem :=
    runPass_disk_prefix jobs { mem := loaded, disk := loaded } ⟨[], by simp⟩
  have hconcat : runPass loaded (jobs ++ [j]) = stepPaper (runPass loaded jobs) j := by
    unfold runPass
    rw [List.foldl_append]
    rfl
  refine ⟨hpre, ?_, runPass_mem_eq jobs { mem := loaded, disk := loaded }, fun hf => ?_⟩
  · rw [hconcat]
    obtain ⟨t, ht⟩ := hpre
    cases hf : j.failAfter with
    | none =>
      refine ⟨t ++ j.recs, ?_⟩
      simp [stepPaper, hf, ← List.append_assoc, ht]
    | some k => exact ⟨[], by simp [stepPaper, hf]⟩
  · rw [hconcat]
    simp [stepPaper, hf]

/-- C8 witness: the amended checkpoint theorem applied at a concrete
loaded list, paper list and succeeding paper. -/
theorem checkpoint_growth_amended_witness :
    (runPass [] ([] ++ [{ recs := [], failAfter := none }])).disk =
      (runPass [] ([] ++ [{ recs := [], failAfter := none }])).mem :=
  (checkpoint_growth_amended [] [] { recs := [], failAfter := none }).2.2.2 rfl
